import Mathlib

/-!
Shallow embedding of the clamdproxy proxy core (Go) and proofs about it.

The program proxies the clamd wire protocol between a client and a backend:
it reads delimited commands, filters them against an allow-list, forwards
allowed commands, relays the INSTREAM length-prefixed chunk sub-protocol,
and classifies connection errors for logging.

Modelling conventions:
* a byte is a `Nat` (Go guarantees values < 256; where the code arithmetic
  depends on the byte range we reduce modulo 256 explicitly);
* a readable stream is the finite list of bytes it will ever deliver;
  reading past the end of the list is the `io.EOF` condition;
* a `bufio.Writer` is a `Writer`: the bytes already flushed to the
  underlying connection plus the bytes still sitting in its buffer.
  The underlying connection never fails in this model, so write errors
  do not occur; read-side failures (stream exhausted) are modelled exactly;
* Go strings are `List Char` (rune sequences) for the string functions,
  and raw byte lists where the code handles raw bytes.
-/

namespace Clamdproxy

/-- Result of `readCommand`. The Go function returns `(cmd, delim, err)`;
the model also returns the unread remainder of the input stream, which the
Go code leaves inside the shared `bufio.Reader`. -/
structure ReadResult where
  cmd : List Nat
  delim : Nat
  err : Bool
  rest : List Nat
deriving Repr, DecidableEq

/-- Model of `readCommand`: accumulate bytes until a NUL (0) or LF (10)
byte appears; that byte is the delimiter. If the stream is exhausted first,
return the Go zero values `("", 0)` together with the error flag. -/
def readCommand : List Nat → ReadResult
  | [] => ⟨[], 0, true, []⟩
  | b :: bs =>
    if b = 0 ∨ b = 10 then ⟨[], b, false, bs⟩
    else
      let r := readCommand bs
      if r.err then ⟨[], 0, true, r.rest⟩
      else ⟨b :: r.cmd, r.delim, false, r.rest⟩

/-- Model of a `bufio.Writer` over an infallible sink: `flushed` is what the
underlying connection has received, `buf` is what still sits in the buffer. -/
structure Writer where
  flushed : List Nat
  buf : List Nat
deriving Repr, DecidableEq

/-- Buffered write: the bytes are appended to the buffer. -/
def Writer.write (w : Writer) (bs : List Nat) : Writer :=
  { w with buf := w.buf ++ bs }

/-- Model of `bufio.Writer.Flush`: the buffer is emptied into the sink. -/
def Writer.flush (w : Writer) : Writer :=
  ⟨w.flushed ++ w.buf, []⟩

/-- All bytes the writer has accepted, in order (flushed first, then buffered). -/
def Writer.delivered (w : Writer) : List Nat :=
  w.flushed ++ w.buf

/-- ASCII code points of a string literal, used to state byte-level facts. -/
def asciiBytes (s : String) : List Nat :=
  s.data.map Char.toNat

/-- Go `unicode.IsSpace` on a rune: the Unicode White_Space code points. -/
def goIsSpace (c : Char) : Bool :=
  (9 ≤ c.toNat && c.toNat ≤ 13) || c.toNat == 32 || c.toNat == 0x85 ||
    c.toNat == 0xA0 || c.toNat == 0x1680 ||
    (0x2000 ≤ c.toNat && c.toNat ≤ 0x200A) ||
    c.toNat == 0x2028 || c.toNat == 0x2029 || c.toNat == 0x202F ||
    c.toNat == 0x205F || c.toNat == 0x3000

/-- Accumulator version of `strings.Fields` on runes: `acc` holds the
current token reversed. -/
def goFieldsAux (acc : List Char) : List Char → List (List Char)
  | [] => if acc.isEmpty then [] else [acc.reverse]
  | c :: cs =>
    if goIsSpace c then
      if acc.isEmpty then goFieldsAux [] cs
      else acc.reverse :: goFieldsAux [] cs
    else goFieldsAux (c :: acc) cs

/-- Model of `strings.Fields`: the maximal runs of non-space runes. -/
def goFields (s : List Char) : List (List Char) :=
  goFieldsAux [] s

/-- The `allowedCommands` map (rune-level view). -/
def allowedCommands : List (List Char) :=
  ["PING".data, "INSTREAM".data, "VERSION".data, "VERSIONCOMMANDS".data]

/-- Model of `isCommandAllowed`: take the first whitespace field of the
command, strip one leading 'z' or 'n' (`actualCmd[1:]`), and look the
result up in `allowedCommands`; an empty field list is rejected. -/
def isCommandAllowed (cmd : List Char) : Bool :=
  match goFields cmd with
  | [] => false
  | tok :: _ =>
    decide ((if ['z'].isPrefixOf tok || ['n'].isPrefixOf tok then tok.tail else tok)
      ∈ allowedCommands)

/-- Model of `isInstreamCommand`: the command starts with "z" or "n" and
ends with "INSTREAM" (`strings.HasPrefix`/`strings.HasSuffix`). -/
def isInstreamCommand (cmd : List Char) : Bool :=
  (['z'].isPrefixOf cmd && "INSTREAM".data.isSuffixOf cmd) ||
    (['n'].isPrefixOf cmd && "INSTREAM".data.isSuffixOf cmd)

/-- Whether a byte is a UTF-8 continuation byte (`0x80..0xBF`). -/
def utf8Cont (b : Nat) : Bool :=
  128 ≤ b && b ≤ 191

/-- The accepted second-byte range of a 3-byte UTF-8 sequence, per Go's
`unicode/utf8` accept table: `0xE0` excludes overlong encodings, `0xED`
excludes surrogates. -/
def utf8Accept3 (b0 b1 : Nat) : Bool :=
  if b0 = 224 then 160 ≤ b1 && b1 ≤ 191
  else if b0 = 237 then 128 ≤ b1 && b1 ≤ 159
  else utf8Cont b1

/-- The accepted second-byte range of a 4-byte UTF-8 sequence, per Go's
`unicode/utf8` accept table: `0xF0` excludes overlong encodings, `0xF4`
caps the result at U+10FFFF. -/
def utf8Accept4 (b0 b1 : Nat) : Bool :=
  if b0 = 240 then 144 ≤ b1 && b1 ≤ 191
  else if b0 = 244 then 128 ≤ b1 && b1 ≤ 143
  else utf8Cont b1

/-- The rune sequence Go sees when it iterates over `string(cmdBytes)`:
UTF-8 decoding as in `utf8.DecodeRuneInString` — ASCII bytes stand alone,
well-formed 2/3/4-byte sequences decode to their code point, and every
invalid or truncated sequence yields U+FFFD while consuming exactly one
byte. All accepted code points are valid scalars, so `Char.ofNat` is exact. -/
def utf8Decode : List Nat → List Char
  | [] => []
  | b0 :: bs =>
    if b0 < 128 then Char.ofNat b0 :: utf8Decode bs
    else if 194 ≤ b0 ∧ b0 ≤ 223 then
      match bs with
      | b1 :: rest =>
        if utf8Cont b1 then
          Char.ofNat ((b0 - 192) * 64 + (b1 - 128)) :: utf8Decode rest
        else Char.ofNat 65533 :: utf8Decode (b1 :: rest)
      | [] => [Char.ofNat 65533]
    else if 224 ≤ b0 ∧ b0 ≤ 239 then
      match bs with
      | b1 :: b2 :: rest =>
        if utf8Accept3 b0 b1 && utf8Cont b2 then
          Char.ofNat ((b0 - 224) * 4096 + (b1 - 128) * 64 + (b2 - 128)) :: utf8Decode rest
        else Char.ofNat 65533 :: utf8Decode (b1 :: b2 :: rest)
      | [b1] => Char.ofNat 65533 :: utf8Decode [b1]
      | [] => [Char.ofNat 65533]
    else if 240 ≤ b0 ∧ b0 ≤ 244 then
      match bs with
      | b1 :: b2 :: b3 :: rest =>
        if utf8Accept4 b0 b1 && utf8Cont b2 && utf8Cont b3 then
          Char.ofNat ((b0 - 240) * 262144 + (b1 - 128) * 4096 + (b2 - 128) * 64 + (b3 - 128))
            :: utf8Decode rest
        else Char.ofNat 65533 :: utf8Decode (b1 :: b2 :: b3 :: rest)
      | [b1, b2] => Char.ofNat 65533 :: utf8Decode [b1, b2]
      | [b1] => Char.ofNat 65533 :: utf8Decode [b1]
      | [] => [Char.ofNat 65533]
    else Char.ofNat 65533 :: utf8Decode bs

/-- The call `isCommandAllowed(cmd)` on the raw command bytes: Go converts
the bytes to a string and `strings.Fields` iterates its runes with
`unicode.IsSpace`, so the byte-level classifier is the rune-level one after
UTF-8 decoding. (The 'z'/'n' strip and the allow-list entries are ASCII, on
which decoding is the identity, so `actualCmd[1:]` and the map lookup agree
with their rune-level counterparts.) -/
def isCommandAllowedB (cmd : List Nat) : Bool :=
  isCommandAllowed (utf8Decode cmd)

/-- Byte-level model of `isInstreamCommand`: the command starts with 'z'
(122) or 'n' (110) and ends with the bytes of "INSTREAM". -/
def isInstreamCommandB (cmd : List Nat) : Bool :=
  (cmd.head? == some 122 || cmd.head? == some 110) &&
    (asciiBytes "INSTREAM").isSuffixOf cmd

/-- The rejection text the proxy sends to the client for a blocked command. -/
def errResponse : List Nat :=
  asciiBytes "ERROR: Command not allowed\n"

/-- The big-endian chunk size `int(b0)<<24 | int(b1)<<16 | int(b2)<<8 | int(b3)`;
on byte values (< 256) the bitwise ors are exactly this sum, and the model
reduces each operand modulo 256 as the Go `byte` type does. -/
def decodeSize (b0 b1 b2 b3 : Nat) : Nat :=
  b0 % 256 * 16777216 + b1 % 256 * 65536 + b2 % 256 * 256 + b3 % 256

/-- The 4-byte big-endian encoding of a chunk length, as a client sends it. -/
def encodeSize (n : Nat) : List Nat :=
  [n / 16777216 % 256, n / 65536 % 256, n / 256 % 256, n % 256]

/-- Model of `io.CopyN(dst, src, size)` for the over-32KiB chunk path: the
source bytes reach the buffered writer in bounded slices (io.Copy uses a
32 KiB transfer buffer), never all at once. -/
def copyN (w : Writer) (src : List Nat) : Writer :=
  if src = [] then w
  else copyN (w.write (src.take 32768)) (src.drop 32768)
termination_by src.length
decreasing_by
  simp only [List.length_drop]
  cases src with
  | nil => simp_all
  | cons a l => simp; omega

/-- The chunk-data forwarding step of `handleInstream`: a chunk at or below
the 32 KiB pool size goes through the pooled buffer (one `Write` of the
payload); a larger chunk goes through `io.CopyN`. -/
def writeChunk (w : Writer) (size : Nat) (payload : List Nat) : Writer :=
  if size ≤ 32 * 1024 then w.write payload else copyN w payload

/-- The periodic flush of `handleInstream` (`chunks%10 == 0` after the
counter was incremented). -/
def flushEvery10 (chunks : Nat) (w : Writer) : Writer :=
  if chunks % 10 = 0 then w.flush else w

/-- Model of `handleInstream`: repeatedly read a 4-byte big-endian length,
forward those 4 bytes, stop (with a final flush) on a zero length, otherwise
read and forward exactly `size` payload bytes (`writeChunk`), flushing after
every 10th chunk. An undersized payload aborts with no flush: on the pooled
path (`size ≤ 32*1024`) `io.ReadFull` fails before anything beyond the size
bytes is written; on the large-chunk path `io.CopyN` copies the remaining
partial payload into the buffered writer and then fails with its own
message. Returns the Go error value, the writer, and the unread remainder
of the stream. -/
def handleInstream (chunks : Nat) (input : List Nat) (w : Writer) :
    Except String Unit × Writer × List Nat :=
  match input with
  | b0 :: b1 :: b2 :: b3 :: rest =>
    if decodeSize b0 b1 b2 b3 = 0 then
      (Except.ok (), (w.write [b0, b1, b2, b3]).flush, rest)
    else if decodeSize b0 b1 b2 b3 ≤ rest.length then
      handleInstream (chunks + 1) (rest.drop (decodeSize b0 b1 b2 b3))
        (flushEvery10 (chunks + 1)
          (writeChunk (w.write [b0, b1, b2, b3]) (decodeSize b0 b1 b2 b3)
            (rest.take (decodeSize b0 b1 b2 b3))))
    else if decodeSize b0 b1 b2 b3 ≤ 32 * 1024 then
      (Except.error "failed to read chunk data", w.write [b0, b1, b2, b3], [])
    else
      (Except.error "failed to copy chunk data", copyN (w.write [b0, b1, b2, b3]) rest, [])
  | _ => (Except.error "failed to read chunk size", w, [])
termination_by input.length
decreasing_by
  simp only [List.length_drop, List.length_cons]
  omega

/-- A successful `readCommand` consumes at least the delimiter byte. -/
theorem readCommand_rest_length (input : List Nat) :
    (readCommand input).err = false → (readCommand input).rest.length < input.length := by
  induction input with
  | nil => simp [readCommand]
  | cons b bs ih =>
    simp only [readCommand]
    split
    · intro _; simp
    · split
      · simp_all
      · intro _
        simp only [List.length_cons]
        exact Nat.lt_trans (ih (by simp_all)) (Nat.lt_succ_self _)

/-- A successful `handleInstream` consumes at least the 4-byte terminator. -/
theorem handleInstream_rest_length (chunks : Nat) (input : List Nat) (w : Writer) :
    (handleInstream chunks input w).1 = Except.ok () →
      (handleInstream chunks input w).2.2.length + 4 ≤ input.length := by
  induction chunks, input, w using handleInstream.induct with
  | case1 chunks w b0 b1 b2 b3 rest hz =>
    intro _
    simp only [handleInstream, if_pos hz]
    simp
  | case2 chunks w b0 b1 b2 b3 rest hz hle ih =>
    intro hok
    simp only [handleInstream, if_neg hz, if_pos hle] at hok ⊢
    have h2 := ih hok
    simp only [List.length_drop] at h2
    simp only [List.length_cons]
    omega
  | case3 chunks w b0 b1 b2 b3 rest hz hle hsmall =>
    intro hok
    simp only [handleInstream, if_neg hz, if_neg hle] at hok
    split at hok <;> simp at hok
  | case4 chunks w b0 b1 b2 b3 rest hz hle hbig =>
    intro hok
    simp only [handleInstream, if_neg hz, if_neg hle] at hok
    split at hok <;> simp at hok
  | case5 chunks input w hshape =>
    intro hok
    rw [handleInstream.eq_def] at hok
    split at hok
    · next b0 b1 b2 b3 rest => exact (hshape b0 b1 b2 b3 rest rfl).elim
    · simp at hok

/-- The outcome of one run of the client→backend direction: the final state
of the backend-facing writer, the client-facing writer, and whether the
direction closed the backend connection before exiting. -/
structure C2BResult where
  bw : Writer
  cw : Writer
  backendClosed : Bool
deriving Repr, DecidableEq

/-- Model of `handleClientToBackend`: loop reading one command at a time.
On a read error, close the backend and exit. If the command is allowed,
forward name+delimiter and flush; if it is also an INSTREAM spelling, run
`handleInstream` and exit (without closing the backend) when it fails. If
the command is blocked, send `errResponse` to the client, flush, and keep
looping. Write/flush errors cannot occur in this model (infallible sink). -/
def handleClientToBackend (input : List Nat) (bw cw : Writer) : C2BResult :=
  if hr : (readCommand input).err then ⟨bw, cw, true⟩
  else if isCommandAllowedB (readCommand input).cmd then
    if isInstreamCommandB (readCommand input).cmd then
      match hi : handleInstream 0 (readCommand input).rest
          ((bw.write ((readCommand input).cmd ++ [(readCommand input).delim])).flush) with
      | (Except.ok _, bw2, rest2) => handleClientToBackend rest2 bw2 cw
      | (Except.error _, bw2, _) => ⟨bw2, cw, false⟩
    else handleClientToBackend (readCommand input).rest
      ((bw.write ((readCommand input).cmd ++ [(readCommand input).delim])).flush) cw
  else handleClientToBackend (readCommand input).rest bw ((cw.write errResponse).flush)
termination_by input.length
decreasing_by
  · have h1 := readCommand_rest_length input (by simpa using hr)
    have h2 := handleInstream_rest_length 0 (readCommand input).rest
      ((bw.write ((readCommand input).cmd ++ [(readCommand input).delim])).flush)
      (by rw [hi])
    rw [hi] at h2
    simp only at h2
    omega
  · exact readCommand_rest_length input (by simpa using hr)
  · exact readCommand_rest_length input (by simpa using hr)

/-- A well-formed INSTREAM byte stream: for each payload in the list, its
4-byte big-endian length followed by the payload, ending with the 4-byte
zero terminator. -/
def chunkStream : List (List Nat) → List Nat
  | [] => [0, 0, 0, 0]
  | p :: ps => encodeSize p.length ++ p ++ chunkStream ps

/-- Shallow embedding of the Go error values `isConnectionClosed` inspects.
`wrap` is `fmt.Errorf("...: %w", inner)`. `opErr` is a `*net.OpError`
wrapping `inner` (its `Unwrap` returns the inner error); its `timeout`
field records what its `Timeout()` method reports. `netErr` is any other
error implementing `net.Error` (no `Unwrap`), with its `Timeout()` value.
`eof`, `unexpectedEOF`, `epipe`, `econnreset` are the sentinel errors
`io.EOF`, `io.ErrUnexpectedEOF`, `syscall.EPIPE`, `syscall.ECONNRESET`;
`other k` is any further unrelated error. -/
inductive GoError where
  | eof
  | unexpectedEOF
  | epipe
  | econnreset
  | opErr (timeout : Bool) (inner : GoError)
  | netErr (timeout : Bool)
  | wrap (inner : GoError)
  | other (k : Nat)
deriving Repr, DecidableEq

/-- The `errors.Unwrap` chain of an error: the error itself followed by the
chain of what it wraps (`wrap` and `opErr` have `Unwrap`, nothing else does). -/
def unwrapChain : GoError → List GoError
  | .wrap i => .wrap i :: unwrapChain i
  | .opErr t i => .opErr t i :: unwrapChain i
  | e => [e]

/-- Whether an error value implements the `net.Error` interface
(`*net.OpError` does; so does any direct `net.Error`). -/
def isNetErrorVal : GoError → Bool
  | .opErr _ _ => true
  | .netErr _ => true
  | _ => false

/-- Whether an error value is a `*net.OpError`. -/
def isOpErrorVal : GoError → Bool
  | .opErr _ _ => true
  | _ => false

/-- What `Timeout()` reports on a `net.Error` value. -/
def timeoutVal : GoError → Bool
  | .opErr t _ => t
  | .netErr t => t
  | _ => false

/-- Whether an error value is one of the four closure sentinels the code
compares against with `errors.Is`. -/
def isClosedSentinel : GoError → Bool
  | .eof => true
  | .unexpectedEOF => true
  | .epipe => true
  | .econnreset => true
  | _ => false

/-- Model of `isConnectionClosed`. `errors.As(err, &netErr)` finds the first
`net.Error` in the unwrap chain; if it reports a timeout the answer is
`false`. Then `errors.As(err, &opErr)` answers `true` if any `*net.OpError`
is in the chain. Finally `errors.Is` against the four closure sentinels. -/
def isConnectionClosed : Option GoError → Bool
  | none => false
  | some e =>
    if (match (unwrapChain e).find? isNetErrorVal with
        | some ne => timeoutVal ne
        | none => false) then false
    else if (unwrapChain e).any isOpErrorVal then true
    else (unwrapChain e).any isClosedSentinel

/-- Unfolding the loop at a command-read error: close the backend and exit. -/
theorem c2bStepReadErr (input : List Nat) (bw cw : Writer)
    (h : (readCommand input).err = true) :
    handleClientToBackend input bw cw = ⟨bw, cw, true⟩ := by
  rw [handleClientToBackend]
  simp [h]

/-- Unfolding the loop at a blocked command: send the rejection to the
client, flush it, and continue with the rest of the stream. -/
theorem c2bStepBlocked (input : List Nat) (bw cw : Writer)
    (h1 : (readCommand input).err = false)
    (h2 : isCommandAllowedB (readCommand input).cmd = false) :
    handleClientToBackend input bw cw =
      handleClientToBackend (readCommand input).rest bw ((cw.write errResponse).flush) := by
  rw [handleClientToBackend]
  simp [h1, h2]

/-- Unfolding the loop at an allowed non-INSTREAM command: forward
name+delimiter, flush, and continue with the rest of the stream. -/
theorem c2bStepAllowedPlain (input : List Nat) (bw cw : Writer)
    (h1 : (readCommand input).err = false)
    (h2 : isCommandAllowedB (readCommand input).cmd = true)
    (h3 : isInstreamCommandB (readCommand input).cmd = false) :
    handleClientToBackend input bw cw =
      handleClientToBackend (readCommand input).rest
        ((bw.write ((readCommand input).cmd ++ [(readCommand input).delim])).flush) cw := by
  rw [handleClientToBackend]
  simp [h1, h2, h3]

/-- Unfolding the loop at an allowed INSTREAM command whose chunk relay
succeeds: forward and flush the command, run the relay, continue after it. -/
theorem c2bStepInstreamOk (input : List Nat) (bw cw : Writer)
    (h1 : (readCommand input).err = false)
    (h2 : isCommandAllowedB (readCommand input).cmd = true)
    (h3 : isInstreamCommandB (readCommand input).cmd = true)
    (h4 : (handleInstream 0 (readCommand input).rest
        ((bw.write ((readCommand input).cmd ++ [(readCommand input).delim])).flush)).1 =
        Except.ok ()) :
    handleClientToBackend input bw cw =
      handleClientToBackend
        (handleInstream 0 (readCommand input).rest
          ((bw.write ((readCommand input).cmd ++ [(readCommand input).delim])).flush)).2.2
        (handleInstream 0 (readCommand input).rest
          ((bw.write ((readCommand input).cmd ++ [(readCommand input).delim])).flush)).2.1
        cw := by
  rw [handleClientToBackend]
  simp only [h1, h2, h3, Bool.false_eq_true, if_true, if_false, dite_eq_ite, if_pos]
  split
  · next u bw2 rest2 hi =>
    rw [hi]
  · next e bw2 r2 hi =>
    rw [hi] at h4
    simp at h4

/-- Unfolding the loop at an allowed INSTREAM command whose chunk relay
fails: the direction exits without closing the backend connection. -/
theorem c2bStepInstreamErr (input : List Nat) (bw cw : Writer) (msg : String)
    (h1 : (readCommand input).err = false)
    (h2 : isCommandAllowedB (readCommand input).cmd = true)
    (h3 : isInstreamCommandB (readCommand input).cmd = true)
    (h4 : (handleInstream 0 (readCommand input).rest
        ((bw.write ((readCommand input).cmd ++ [(readCommand input).delim])).flush)).1 =
        Except.error msg) :
    handleClientToBackend input bw cw =
      ⟨(handleInstream 0 (readCommand input).rest
          ((bw.write ((readCommand input).cmd ++ [(readCommand input).delim])).flush)).2.1,
        cw, false⟩ := by
  rw [handleClientToBackend]
  simp only [h1, h2, h3, Bool.false_eq_true, if_true, if_false, dite_eq_ite, if_pos]
  split
  · next u bw2 rest2 hi =>
    rw [hi] at h4
    simp at h4
  · next e bw2 r2 hi =>
    rw [hi]

/-- Writing twice is writing the concatenation. -/
theorem writer_write_write (w : Writer) (a b : List Nat) :
    (w.write a).write b = w.write (a ++ b) := by
  simp [Writer.write]

/-- A flush in the middle does not change what one final flush delivers. -/
theorem writer_flush_write_flush (w : Writer) (a : List Nat) :
    ((w.flush).write a).flush = (w.write a).flush := by
  simp [Writer.flush, Writer.write]

/-- The bounded copy delivers exactly the source bytes, in order. -/
theorem copyN_write_eq (w : Writer) (src : List Nat) : copyN w src = w.write src := by
  induction w, src using copyN.induct with
  | case1 w =>
    rw [copyN]
    simp [Writer.write]
  | case2 w src hsrc ih =>
    rw [copyN, if_neg hsrc, ih, writer_write_write, List.take_append_drop]

/-- Both chunk-forwarding paths (pooled buffer and `io.CopyN`) write the
payload verbatim. -/
theorem writeChunk_write (w : Writer) (s : Nat) (p : List Nat) :
    writeChunk w s p = w.write p := by
  unfold writeChunk
  split
  · rfl
  · exact copyN_write_eq w p

/-- The periodic flush does not change what one final flush delivers. -/
theorem flushEvery10_write_flush (c : Nat) (w : Writer) (a : List Nat) :
    ((flushEvery10 c w).write a).flush = (w.write a).flush := by
  unfold flushEvery10
  split
  · exact writer_flush_write_flush w a
  · rfl

/-- Big-endian decode of the big-endian encode of a length below 2^32. -/
theorem decodeSize_encodeSize (n : Nat) (h : n < 4294967296) :
    decodeSize (n / 16777216 % 256) (n / 65536 % 256) (n / 256 % 256) (n % 256) = n := by
  simp only [decodeSize]
  omega

/-- On a well-formed chunk stream followed by anything, the relay consumes
exactly the stream, forwards it verbatim, force-flushes, and succeeds —
whatever the chunk counter and the prior writer state. -/
theorem instream_chunkStream (ps : List (List Nat))
    (hps : ∀ p ∈ ps, 0 < p.length ∧ p.length < 4294967296) :
    ∀ (c : Nat) (extra : List Nat) (w : Writer),
      handleInstream c (chunkStream ps ++ extra) w =
        (Except.ok (), (w.write (chunkStream ps)).flush, extra) := by
  induction ps with
  | nil =>
    intro c extra w
    simp [chunkStream, handleInstream, decodeSize]
  | cons p ps ih =>
    intro c extra w
    obtain ⟨hp0, hp32⟩ := hps p (by simp)
    simp only [chunkStream, encodeSize, List.cons_append, List.nil_append, List.append_assoc]
    rw [handleInstream.eq_1, decodeSize_encodeSize p.length hp32]
    rw [if_neg (by omega : ¬ p.length = 0)]
    rw [if_pos (by simp : p.length ≤ (p ++ (chunkStream ps ++ extra)).length)]
    rw [show (p ++ (chunkStream ps ++ extra)).take p.length = p from List.take_left p _]
    rw [show (p ++ (chunkStream ps ++ extra)).drop p.length = chunkStream ps ++ extra from
      List.drop_left p _]
    rw [ih (fun q hq => hps q (List.mem_cons_of_mem p hq))]
    rw [writeChunk_write, flushEvery10_write_flush, writer_write_write, writer_write_write]
    simp

/-- Reading a delimiter-free run followed by a delimiter yields exactly that
run, that delimiter, and the bytes after it. -/
theorem readCommand_delim (name : List Nat) (d : Nat) (rest : List Nat)
    (hname : ∀ b ∈ name, b ≠ 0 ∧ b ≠ 10) (hd : d = 0 ∨ d = 10) :
    readCommand (name ++ d :: rest) = ⟨name, d, false, rest⟩ := by
  induction name with
  | nil =>
    simp only [List.nil_append, readCommand]
    rw [if_pos hd]
  | cons b name ih =>
    obtain ⟨hb0, hb10⟩ := hname b (by simp)
    simp only [List.cons_append, readCommand]
    rw [if_neg (by omega : ¬ (b = 0 ∨ b = 10))]
    simp [List.append_eq, ih (fun x hx => hname x (List.mem_cons_of_mem b hx))]

/-- A stream with no delimiter anywhere is exhausted first: `readCommand`
fails on it, no matter how many bytes it read. -/
theorem readCommand_noDelim (input : List Nat)
    (h : ∀ b ∈ input, b ≠ 0 ∧ b ≠ 10) : (readCommand input).err = true := by
  induction input with
  | nil => simp [readCommand]
  | cons b bs ih =>
    obtain ⟨hb0, hb10⟩ := h b (by simp)
    simp only [readCommand]
    rw [if_neg (by omega : ¬ (b = 0 ∨ b = 10))]
    simp [ih (fun x hx => h x (List.mem_cons_of_mem b hx))]

/-- A successfully read command never contains a delimiter byte. -/
theorem readCommand_ok_clean (input : List Nat) :
    (readCommand input).err = false →
      0 ∉ (readCommand input).cmd ∧ 10 ∉ (readCommand input).cmd := by
  induction input with
  | nil => simp [readCommand]
  | cons b bs ih =>
    simp only [readCommand]
    split
    · intro _; simp
    · next hnd =>
      split
      · simp
      · next herr =>
        intro _
        have := ih (by simpa using herr)
        simp only [List.mem_cons]
        constructor
        · rintro (rfl | hm)
          · exact hnd (Or.inl rfl)
          · exact this.1 hm
        · rintro (rfl | hm)
          · exact hnd (Or.inr rfl)
          · exact this.2 hm

/-- On error `readCommand` returns the Go zero values: empty command and
delimiter 0. -/
theorem readCommand_err_defaults (input : List Nat) :
    (readCommand input).err = true →
      (readCommand input).cmd = [] ∧ (readCommand input).delim = 0 := by
  induction input with
  | nil => simp [readCommand]
  | cons b bs _ =>
    simp only [readCommand]
    split
    · simp
    · split
      · simp
      · simp

/-- A payload shorter than a declared chunk size on the pooled path
(at most 32 KiB) aborts the relay right after the 4 size bytes entered the
buffer, with no flush: `io.ReadFull` into the pooled buffer fails before
any payload byte is written. -/
theorem instream_failPayload (c : Nat) (b0 b1 b2 b3 : Nat) (rest : List Nat) (w : Writer)
    (hz : decodeSize b0 b1 b2 b3 ≠ 0) (hlt : rest.length < decodeSize b0 b1 b2 b3)
    (hsmall : decodeSize b0 b1 b2 b3 ≤ 32 * 1024) :
    handleInstream c (b0 :: b1 :: b2 :: b3 :: rest) w =
      (Except.error "failed to read chunk data", w.write [b0, b1, b2, b3], []) := by
  rw [handleInstream.eq_1, if_neg hz, if_neg (by omega), if_pos hsmall]

/-- The chunk relay never removes bytes already flushed to the backend. -/
theorem instream_flushed_mono (chunks : Nat) (input : List Nat) (w : Writer) :
    w.flushed <+: (handleInstream chunks input w).2.1.flushed := by
  induction chunks, input, w using handleInstream.induct with
  | case1 chunks w b0 b1 b2 b3 rest hz =>
    simp only [handleInstream, if_pos hz]
    exact List.prefix_append _ _
  | case2 chunks w b0 b1 b2 b3 rest hz hle ih =>
    simp only [handleInstream, if_neg hz, if_pos hle]
    refine List.IsPrefix.trans ?_ ih
    rw [writeChunk_write, writer_write_write]
    unfold flushEvery10
    split
    · exact List.prefix_append _ _
    · exact List.prefix_refl _
  | case3 chunks w b0 b1 b2 b3 rest hz hle hsmall =>
    simp only [handleInstream, if_neg hz, if_neg hle, if_pos hsmall]
    exact List.prefix_refl _
  | case4 chunks w b0 b1 b2 b3 rest hz hle hbig =>
    simp only [handleInstream, if_neg hz, if_neg hle, if_neg hbig]
    rw [copyN_write_eq]
    exact List.prefix_refl _
  | case5 chunks input w hshape =>
    rw [handleInstream.eq_def]
    split
    · next b0 b1 b2 b3 rest => exact (hshape b0 b1 b2 b3 rest rfl).elim
    · exact List.prefix_refl _

/-- The client→backend loop never removes bytes already flushed to the
backend. -/
theorem c2b_flushed_mono (input : List Nat) (bw cw : Writer) :
    bw.flushed <+: (handleClientToBackend input bw cw).bw.flushed := by
  induction input, bw, cw using handleClientToBackend.induct with
  | case1 input bw cw hr =>
    rw [c2bStepReadErr input bw cw hr]
  | case2 input bw cw hr hallow hin a bw2 rest2 heq ih =>
    rw [c2bStepInstreamOk input bw cw (by simpa using hr) hallow hin (by rw [heq])]
    rw [heq]
    refine List.IsPrefix.trans ?_ ih
    have := instream_flushed_mono 0 (readCommand input).rest
      ((bw.write ((readCommand input).cmd ++ [(readCommand input).delim])).flush)
    rw [heq] at this
    exact List.IsPrefix.trans (List.prefix_append _ _) this
  | case3 input bw cw hr hallow hin a bw2 snd heq =>
    rw [c2bStepInstreamErr input bw cw a (by simpa using hr) hallow hin (by rw [heq])]
    have := instream_flushed_mono 0 (readCommand input).rest
      ((bw.write ((readCommand input).cmd ++ [(readCommand input).delim])).flush)
    exact List.IsPrefix.trans (List.prefix_append _ _) this
  | case4 input bw cw hr hallow hin ih =>
    rw [c2bStepAllowedPlain input bw cw (by simpa using hr) hallow (by simpa using hin)]
    exact List.IsPrefix.trans (List.prefix_append _ _) ih
  | case5 input bw cw hr hallow ih =>
    rw [c2bStepBlocked input bw cw (by simpa using hr) (by simpa using hallow)]
    exact ih

/-- A whitespace-only input yields no fields. -/
theorem goFieldsAux_all_space (s : List Char) (h : ∀ c ∈ s, goIsSpace c = true) :
    goFieldsAux [] s = [] := by
  induction s with
  | nil => simp [goFieldsAux]
  | cons c cs ih =>
    simp only [goFieldsAux, h c (by simp), if_true, List.isEmpty_nil]
    exact ih fun x hx => h x (List.mem_cons_of_mem c hx)

/-- Scanning a run of non-space characters just moves it into the
accumulator (reversed). -/
theorem goFieldsAux_token (tok : List Char) (h : ∀ c ∈ tok, goIsSpace c = false) :
    ∀ (acc rest : List Char),
      goFieldsAux acc (tok ++ rest) = goFieldsAux (tok.reverse ++ acc) rest := by
  induction tok with
  | nil => intro acc rest; simp
  | cons c cs ih =>
    intro acc rest
    simp only [List.cons_append, goFieldsAux, List.append_eq]
    rw [if_neg (by simp [h c (by simp)])]
    rw [ih (fun x hx => h x (List.mem_cons_of_mem c hx)) (c :: acc) rest]
    simp

/-- A non-empty non-space token followed by a space is the first field. -/
theorem goFields_token_cons (tok : List Char) (d : Char) (rest : List Char)
    (h1 : tok ≠ []) (h2 : ∀ c ∈ tok, goIsSpace c = false) (hd : goIsSpace d = true) :
    goFields (tok ++ d :: rest) = tok :: goFields rest := by
  unfold goFields
  rw [goFieldsAux_token tok h2 [] (d :: rest)]
  simp only [goFieldsAux, List.append_nil, hd, if_true]
  rw [if_neg (by simpa using h1)]
  simp

/-- A non-empty all-non-space input is its own single field. -/
theorem goFields_token_only (tok : List Char)
    (h1 : tok ≠ []) (h2 : ∀ c ∈ tok, goIsSpace c = false) :
    goFields tok = [tok] := by
  unfold goFields
  have htok := goFieldsAux_token tok h2 [] []
  rw [List.append_nil] at htok
  rw [htok]
  simp only [goFieldsAux, List.append_nil]
  rw [if_neg (by simpa using h1)]
  simp

/-- A one-character pattern is a list prefix exactly when it is the head. -/
theorem singleton_isPrefixOf (a : Char) (l : List Char) :
    ([a].isPrefixOf l = true) ↔ l.head? = some a := by
  cases l with
  | nil => simp [List.isPrefixOf]
  | cons c cs =>
    simp only [List.isPrefixOf, Bool.and_eq_true, beq_iff_eq, List.head?_cons,
      Option.some.injEq]
    simp [eq_comm]

/-- C1 counterexample: `isInstreamCommand` also accepts "zzINSTREAM", a
string different from both "zINSTREAM" and "nINSTREAM", so it is not true
only for those two exact strings. -/
theorem C1_cex_zzINSTREAM :
    isInstreamCommand "zzINSTREAM".data = true ∧
      "zzINSTREAM".data ≠ "zINSTREAM".data ∧ "zzINSTREAM".data ≠ "nINSTREAM".data := by
  refine ⟨by decide, by decide, by decide⟩

/-- C1 (amended): `isInstreamCommand` is true exactly for the strings that
start with 'z' or 'n' and end with "INSTREAM"; in particular it is true for
"zINSTREAM" and "nINSTREAM" and false for the bare "INSTREAM" and for every
string not of that shape. -/
theorem C1_isInstreamCommand_characterization :
    (∀ cmd : List Char, isInstreamCommand cmd = true ↔
      ((['z'] <+: cmd ∨ ['n'] <+: cmd) ∧ "INSTREAM".data <:+ cmd)) ∧
    isInstreamCommand "zINSTREAM".data = true ∧
    isInstreamCommand "nINSTREAM".data = true ∧
    isInstreamCommand "INSTREAM".data = false := by
  refine ⟨fun cmd => ?_, by decide, by decide, by decide⟩
  simp only [isInstreamCommand, Bool.or_eq_true, Bool.and_eq_true,
    List.isPrefixOf_iff_prefix, List.isSuffixOf_iff_suffix]
  tauto

/-- C4: `readCommand` returns exactly the bytes before the first delimiter
(NUL or LF) and that delimiter — an immediate delimiter gives a valid empty
command — and fails on a stream exhausted before any delimiter, even after
reading some bytes. -/
theorem C4_readCommand_correct :
    (∀ (name : List Nat) (d : Nat) (rest : List Nat),
      (∀ b ∈ name, b ≠ 0 ∧ b ≠ 10) → (d = 0 ∨ d = 10) →
      readCommand (name ++ d :: rest) = ⟨name, d, false, rest⟩) ∧
    (∀ input : List Nat, (∀ b ∈ input, b ≠ 0 ∧ b ≠ 10) →
      (readCommand input).err = true) ∧
    readCommand [10] = ⟨[], 10, false, []⟩ ∧
    (readCommand (asciiBytes "PING")).err = true := by
  exact ⟨readCommand_delim, readCommand_noDelim, by decide, by decide⟩

/-- C6: on a well-formed chunk stream (any number of chunks of any nonzero
length below 2^32, then the zero terminator) the relay forwards exactly the
input bytes in order, flushes them all, returns success, and consumes
nothing past the terminator; the one-terminator stream and the
single-chunk stream are the spec's concrete instances. -/
theorem C6_instream_relay_exact :
    (∀ ps : List (List Nat), (∀ p ∈ ps, 0 < p.length ∧ p.length < 4294967296) →
      ∀ (c : Nat) (extra : List Nat) (w : Writer),
        handleInstream c (chunkStream ps ++ extra) w =
          (Except.ok (), (w.write (chunkStream ps)).flush, extra)) ∧
    handleInstream 0 [0, 0, 0, 0] ⟨[], []⟩ = (Except.ok (), ⟨[0, 0, 0, 0], []⟩, []) ∧
    (∀ p : List Nat, 0 < p.length → p.length < 4294967296 →
      handleInstream 0 (encodeSize p.length ++ p ++ [0, 0, 0, 0]) ⟨[], []⟩ =
        (Except.ok (), ⟨encodeSize p.length ++ p ++ [0, 0, 0, 0], []⟩, [])) := by
  refine ⟨instream_chunkStream, ?_, fun p hp0 hp32 => ?_⟩
  · have h := instream_chunkStream [] (by simp) 0 [] ⟨[], []⟩
    simpa [chunkStream, Writer.write, Writer.flush] using h
  · have h := instream_chunkStream [p] (by simpa using ⟨hp0, hp32⟩) 0 [] ⟨[], []⟩
    simpa [chunkStream, Writer.write, Writer.flush, List.append_assoc] using h

/-- C7: `isConnectionClosed` is false on nil; false on a timeout error even
when it is an operational network error; true on a (possibly wrapped)
non-timeout operational network error; true on the four closure sentinels;
false on any other error, wrapped or not. -/
theorem C7_isConnectionClosed_cases :
    isConnectionClosed none = false ∧
    (∀ i, isConnectionClosed (some (GoError.opErr true i)) = false) ∧
    isConnectionClosed (some (GoError.netErr true)) = false ∧
    (∀ i, isConnectionClosed (some (GoError.opErr false i)) = true) ∧
    (∀ i, isConnectionClosed (some (GoError.wrap (GoError.opErr false i))) = true) ∧
    isConnectionClosed (some GoError.eof) = true ∧
    isConnectionClosed (some GoError.unexpectedEOF) = true ∧
    isConnectionClosed (some GoError.epipe) = true ∧
    isConnectionClosed (some GoError.econnreset) = true ∧
    (∀ k, isConnectionClosed (some (GoError.other k)) = false) ∧
    (∀ k, isConnectionClosed (some (GoError.wrap (GoError.other k))) = false) := by
  refine ⟨by decide, fun i => ?_, by decide, fun i => ?_, fun i => ?_,
    by decide, by decide, by decide, by decide, fun k => ?_, fun k => ?_⟩ <;>
    simp [isConnectionClosed, unwrapChain, isNetErrorVal, isOpErrorVal, timeoutVal,
      isClosedSentinel, List.find?]

/-- C10: whenever `readCommand` succeeds the returned command contains no
NUL and no LF byte, and whenever it fails it returns the empty command and
delimiter 0; with a success and a failure instance. -/
theorem C10_readCommand_invariants :
    (∀ input : List Nat, (readCommand input).err = false →
      0 ∉ (readCommand input).cmd ∧ 10 ∉ (readCommand input).cmd) ∧
    (∀ input : List Nat, (readCommand input).err = true →
      (readCommand input).cmd = [] ∧ (readCommand input).delim = 0) ∧
    readCommand (asciiBytes "PING" ++ [0]) = ⟨asciiBytes "PING", 0, false, []⟩ ∧
    readCommand (asciiBytes "AB") = ⟨[], 0, true, []⟩ := by
  exact ⟨readCommand_ok_clean, readCommand_err_defaults, by decide, by decide⟩

/-- One loop iteration on a blocked command, with the reader and writers
spelled out: nothing reaches the backend writer, the client writer gets the
rejection text flushed, and the loop continues on the remaining bytes. -/
theorem c2b_blocked_nice (name : List Nat) (d : Nat) (rest : List Nat) (bw cw : Writer)
    (hn : ∀ b ∈ name, b ≠ 0 ∧ b ≠ 10) (hd : d = 0 ∨ d = 10)
    (hna : isCommandAllowedB name = false) :
    handleClientToBackend (name ++ d :: rest) bw cw =
      handleClientToBackend rest bw ⟨cw.flushed ++ cw.buf ++ errResponse, []⟩ := by
  have hrc := readCommand_delim name d rest hn hd
  rw [c2bStepBlocked (name ++ d :: rest) bw cw (by rw [hrc])
    (by simp only [hrc]; exact hna)]
  simp only [hrc]
  simp [Writer.write, Writer.flush, List.append_assoc]

/-- One loop iteration on an allowed non-INSTREAM command, with the reader
and writers spelled out: exactly name+delimiter is appended and flushed to
the backend before the loop continues on the remaining bytes. -/
theorem c2b_allowed_plain_nice (name : List Nat) (d : Nat) (rest : List Nat) (bw cw : Writer)
    (hn : ∀ b ∈ name, b ≠ 0 ∧ b ≠ 10) (hd : d = 0 ∨ d = 10)
    (hallow : isCommandAllowedB name = true) (hin : isInstreamCommandB name = false) :
    handleClientToBackend (name ++ d :: rest) bw cw =
      handleClientToBackend rest ⟨bw.flushed ++ bw.buf ++ name ++ [d], []⟩ cw := by
  have hrc := readCommand_delim name d rest hn hd
  rw [c2bStepAllowedPlain (name ++ d :: rest) bw cw (by rw [hrc])
    (by simp only [hrc]; exact hallow) (by simp only [hrc]; exact hin)]
  simp only [hrc]
  simp [Writer.write, Writer.flush, List.append_assoc]

/-- A one-character list is a prefix exactly when it is the head. -/
theorem singleton_prefix_head (a : Char) (l : List Char) :
    [a] <+: l ↔ l.head? = some a := by
  rw [← List.isPrefixOf_iff_prefix]
  exact singleton_isPrefixOf a l

/-- C3 counterexample: the client sends an allowed INSTREAM command and then
an incomplete chunk; `handleClientToBackend` terminates via the chunk-relay
failure exit, and the backend connection is not closed. -/
theorem C3_cex_relay_error_no_close :
    (handleClientToBackend (asciiBytes "zINSTREAM" ++ 0 :: [0, 0, 0, 1])
        ⟨[], []⟩ ⟨[], []⟩).backendClosed = false := by
  have hrc : readCommand (asciiBytes "zINSTREAM" ++ 0 :: [0, 0, 0, 1]) =
      ⟨asciiBytes "zINSTREAM", 0, false, [0, 0, 0, 1]⟩ := by decide
  have h4 : (handleInstream 0 (readCommand (asciiBytes "zINSTREAM" ++ 0 :: [0, 0, 0, 1])).rest
      ((Writer.mk [] []).write
        ((readCommand (asciiBytes "zINSTREAM" ++ 0 :: [0, 0, 0, 1])).cmd ++
          [(readCommand (asciiBytes "zINSTREAM" ++ 0 :: [0, 0, 0, 1])).delim])).flush).1 =
      Except.error "failed to read chunk data" := by
    simp only [hrc]
    rw [instream_failPayload 0 0 0 0 1 [] _ (by decide) (by decide) (by decide)]
  rw [c2bStepInstreamErr _ _ _ _ (by rw [hrc]) (by simp only [hrc]; decide)
    (by simp only [hrc]; decide) h4]

/-- C3 (amended): the client→backend direction closes the backend connection
when it exits on a command-read error; when it exits because the chunk
relay failed, it terminates without closing the backend connection. -/
theorem C3_backendClose_behavior :
    (∀ (input : List Nat) (bw cw : Writer), (∀ b ∈ input, b ≠ 0 ∧ b ≠ 10) →
      (handleClientToBackend input bw cw).backendClosed = true) ∧
    (∀ (input : List Nat) (bw cw : Writer) (msg : String),
      (readCommand input).err = false →
      isCommandAllowedB (readCommand input).cmd = true →
      isInstreamCommandB (readCommand input).cmd = true →
      (handleInstream 0 (readCommand input).rest
        ((bw.write ((readCommand input).cmd ++ [(readCommand input).delim])).flush)).1 =
        Except.error msg →
      (handleClientToBackend input bw cw).backendClosed = false) := by
  constructor
  · intro input bw cw h
    rw [c2bStepReadErr input bw cw (readCommand_noDelim input h)]
  · intro input bw cw msg h1 h2 h3 h4
    rw [c2bStepInstreamErr input bw cw msg h1 h2 h3 h4]

/-- C5: `isCommandAllowed` is true exactly when the first whitespace field,
after stripping one leading 'z' or 'n', is in the allow-list; whitespace-only
or empty input is rejected; trailing arguments never change the decision;
with the concrete instances of the spec. -/
theorem C5_isCommandAllowed_correct :
    (∀ cmd : List Char, isCommandAllowed cmd = true ↔
      ∃ tok rest, goFields cmd = tok :: rest ∧
        (if tok.head? = some 'z' ∨ tok.head? = some 'n' then tok.tail else tok)
          ∈ allowedCommands) ∧
    (∀ cmd : List Char, (∀ c ∈ cmd, goIsSpace c = true) → isCommandAllowed cmd = false) ∧
    (∀ (tok : List Char) (d : Char) (rest : List Char), tok ≠ [] →
      (∀ c ∈ tok, goIsSpace c = false) → goIsSpace d = true →
      isCommandAllowed (tok ++ d :: rest) = isCommandAllowed tok) ∧
    (isCommandAllowed "PING".data = true ∧ isCommandAllowed "VERSION".data = true ∧
      isCommandAllowed "VERSIONCOMMANDS".data = true ∧
      isCommandAllowed "INSTREAM".data = true ∧ isCommandAllowed "zPING".data = true ∧
      isCommandAllowed "nINSTREAM".data = true ∧ isCommandAllowed "PING 1".data = true ∧
      isCommandAllowed "SCAN /etc/passwd".data = false ∧
      isCommandAllowed "".data = false ∧ isCommandAllowed "  ".data = false ∧
      isCommandAllowed "zSTATS".data = false) := by
  refine ⟨fun cmd => ?_, fun cmd h => ?_, fun tok d rest h1 h2 hd => ?_, by decide⟩
  · rcases h : goFields cmd with _ | ⟨tok, rest⟩
    · simp [isCommandAllowed, h]
    · simp [isCommandAllowed, h, singleton_isPrefixOf, singleton_prefix_head]
  · have hnil : goFields cmd = [] := goFieldsAux_all_space cmd h
    simp [isCommandAllowed, hnil]
  · unfold isCommandAllowed
    rw [goFields_token_cons tok d rest h1 h2 hd, goFields_token_only tok h1 h2]

/-- C8: a blocked command forwards nothing to the backend, the client gets
exactly the rejection line flushed, the loop continues, and a subsequent
allowed command on the same connection is still forwarded. -/
theorem C8_blocked_command_behavior :
    (∀ (name : List Nat) (d : Nat) (rest : List Nat) (bw cw : Writer),
      (∀ b ∈ name, b ≠ 0 ∧ b ≠ 10) → (d = 0 ∨ d = 10) →
      isCommandAllowedB name = false →
      handleClientToBackend (name ++ d :: rest) bw cw =
        handleClientToBackend rest bw ⟨cw.flushed ++ cw.buf ++ errResponse, []⟩) ∧
    (∀ (name : List Nat) (d : Nat) (name2 : List Nat) (d2 : Nat) (rest : List Nat)
        (bw cw : Writer),
      (∀ b ∈ name, b ≠ 0 ∧ b ≠ 10) → (d = 0 ∨ d = 10) →
      isCommandAllowedB name = false →
      (∀ b ∈ name2, b ≠ 0 ∧ b ≠ 10) → (d2 = 0 ∨ d2 = 10) →
      isCommandAllowedB name2 = true → isInstreamCommandB name2 = false →
      handleClientToBackend (name ++ d :: (name2 ++ d2 :: rest)) bw cw =
        handleClientToBackend rest ⟨bw.flushed ++ bw.buf ++ name2 ++ [d2], []⟩
          ⟨cw.flushed ++ cw.buf ++ errResponse, []⟩) := by
  refine ⟨c2b_blocked_nice, ?_⟩
  intro name d name2 d2 rest bw cw hn hd hna hn2 hd2 hallow2 hin2
  rw [c2b_blocked_nice name d (name2 ++ d2 :: rest) bw cw hn hd hna]
  exact c2b_allowed_plain_nice name2 d2 rest bw _ hn2 hd2 hallow2 hin2

/-- C9: an allowed command is forwarded as exactly name+delimiter and the
backend buffer is flushed before any further client input is processed: for
a non-INSTREAM command the loop continues with an empty backend buffer
holding exactly the new bytes flushed, and for every allowed command
(INSTREAM included) the flushed backend bytes extend the forwarded command
as a prefix of everything flushed later. -/
theorem C9_allowed_forward_flush :
    (∀ (name : List Nat) (d : Nat) (rest : List Nat) (bw cw : Writer),
      (∀ b ∈ name, b ≠ 0 ∧ b ≠ 10) → (d = 0 ∨ d = 10) →
      isCommandAllowedB name = true → isInstreamCommandB name = false →
      handleClientToBackend (name ++ d :: rest) bw cw =
        handleClientToBackend rest ⟨bw.flushed ++ bw.buf ++ name ++ [d], []⟩ cw) ∧
    (∀ (name : List Nat) (d : Nat) (rest : List Nat) (bw cw : Writer),
      (∀ b ∈ name, b ≠ 0 ∧ b ≠ 10) → (d = 0 ∨ d = 10) →
      isCommandAllowedB name = true →
      (bw.flushed ++ bw.buf ++ name ++ [d]) <+:
        (handleClientToBackend (name ++ d :: rest) bw cw).bw.flushed) := by
  refine ⟨c2b_allowed_plain_nice, ?_⟩
  intro name d rest bw cw hn hd hallow
  have hrc := readCommand_delim name d rest hn hd
  have hb1 : ((bw.write (name ++ [d])).flush).flushed =
      bw.flushed ++ bw.buf ++ name ++ [d] := by
    simp [Writer.write, Writer.flush, List.append_assoc]
  by_cases hin : isInstreamCommandB name = true
  · rcases hres : handleInstream 0 rest ((bw.write (name ++ [d])).flush) with ⟨res, bw2, rest2⟩
    have hmono := instream_flushed_mono 0 rest ((bw.write (name ++ [d])).flush)
    rw [hres] at hmono
    simp only at hmono
    cases res with
    | ok u =>
      cases u
      rw [c2bStepInstreamOk (name ++ d :: rest) bw cw (by rw [hrc])
        (by simp only [hrc]; exact hallow) (by simp only [hrc]; exact hin)
        (by simp only [hrc]; rw [hres])]
      simp only [hrc]
      rw [hres]
      simp only
      refine List.IsPrefix.trans ?_ (c2b_flushed_mono rest2 bw2 cw)
      rw [← hb1]
      exact hmono
    | error e =>
      rw [c2bStepInstreamErr (name ++ d :: rest) bw cw e (by rw [hrc])
        (by simp only [hrc]; exact hallow) (by simp only [hrc]; exact hin)
        (by simp only [hrc]; rw [hres])]
      simp only [hrc]
      rw [hres]
      simp only
      rw [← hb1]
      exact hmono
  · rw [c2b_allowed_plain_nice name d rest bw cw hn hd hallow (by simpa using hin)]
    exact c2b_flushed_mono rest ⟨bw.flushed ++ bw.buf ++ name ++ [d], []⟩ cw

end Clamdproxy
